import Mathlib

/-!
Verification of the `garden.timeline` time-axis core (`src/__init__.py`).

Shallow embedding conventions:
* A `datetime` is embedded as its wall-clock time in integer microseconds since
  an epoch midnight (`1970-01-01 00:00:00`); Python `datetime` stores whole
  microseconds, and its calendar fields `microsecond`, `second`, `minute`,
  `hour` are exactly the Euclidean digits of that count (`ℤ` division `/` and
  `%` in Lean are Euclidean, matching Python's floor semantics for the
  positive divisors used here).
* A `timedelta` is likewise an integer count of microseconds; constructing a
  `timedelta` from fractional seconds rounds the total to the nearest
  microsecond with a half-to-even tie break, which is Python's documented
  behaviour and is embedded by `pround`.
* Python floats are embedded as exact rationals (`ℚ`).
* `TimeTick.mode` is an `OptionProperty` restricted to the sixteen strings in
  `TimeTick.mode_options`; it is embedded as the inductive type `TickMode`.
-/

/-- The sixteen values of `TimeTick.mode_options`. -/
inductive TickMode where
  | day
  | hours12
  | hours6
  | hours4
  | hours2
  | hour
  | minutes30
  | minutes15
  | minutes10
  | minutes5
  | minute
  | seconds30
  | seconds15
  | seconds10
  | seconds5
  | second
deriving DecidableEq, Repr

open TickMode

/-- Embeds `TimeTick.scale_factor_dict` (number of ticks of a mode per day). -/
def scale_factor : TickMode → ℕ
  | day => 1
  | hours12 => 2
  | hours6 => 4
  | hours4 => 6
  | hours2 => 12
  | hour => 24
  | minutes30 => 48
  | minutes15 => 96
  | minutes10 => 48 * 3
  | minutes5 => 3 * 96
  | minute => 24 * 60
  | seconds30 => 24 * 120
  | seconds15 => 24 * 240
  | seconds10 => 24 * 360
  | seconds5 => 24 * 720
  | second => 24 * 3600

/-- Embeds `TimeTick.granularity`: `scale_factor_dict['second'] /
scale_factor_dict[mode]`, the duration of one tick of `mode` in seconds.
The Python float division is exact for all sixteen modes (each factor divides
86400), so the value is embedded as the natural number it equals. -/
def granularity (mode : TickMode) : ℕ := 86400 / scale_factor mode

/-- Python `datetime.microsecond` of a wall-clock microsecond count. -/
def py_microsecond (w : ℤ) : ℤ := w % 1000000

/-- Python `datetime.second` of a wall-clock microsecond count. -/
def py_second (w : ℤ) : ℤ := (w / 1000000) % 60

/-- Python `datetime.minute` of a wall-clock microsecond count. -/
def py_minute (w : ℤ) : ℤ := (w / 60000000) % 60

/-- Python `datetime.hour` of a wall-clock microsecond count. -/
def py_hour (w : ℤ) : ℤ := (w / 3600000000) % 24

/-- Embeds `time_tail(dt, length)`: the `timedelta` built from the first
`length` entries of `_tail_names = [microsecond, second, minute, hour, day]`
read off `dt`, in microseconds.  `round_time` only ever calls it with
`length` between 1 and 4 (the `day` field is never part of the tail there,
and reading it would need calendar data), so lengths of five or more are
clamped to four. -/
def time_tail (w : ℤ) (length : ℕ) : ℤ :=
  (if 1 ≤ length then py_microsecond w else 0) +
  (if 2 ≤ length then 1000000 * py_second w else 0) +
  (if 3 ≤ length then 60000000 * py_minute w else 0) +
  (if 4 ≤ length then 3600000000 * py_hour w else 0)

/-- The `length` argument `round_time` passes to `time_tail` for each grain:
`_tail_names.index(grain)` when the grain is a plain unit name, and
`_tail_names.index(unit) + 1` when the grain is of the form `'k units'`. -/
def tail_length : TickMode → ℕ
  | second => 1
  | seconds5 | seconds10 | seconds15 | seconds30 => 2
  | minute => 2
  | minutes5 | minutes10 | minutes15 | minutes30 => 3
  | hour => 3
  | hours2 | hours4 | hours6 | hours12 => 4
  | day => 4

/-- The modulus (in seconds) that `time_tail w (tail_length g)` reduces by:
the tail of a datetime is exactly its wall clock modulo this head unit. -/
def head_seconds : TickMode → ℕ
  | second => 1
  | seconds5 | seconds10 | seconds15 | seconds30 | minute => 60
  | minutes5 | minutes10 | minutes15 | minutes30 | hour => 3600
  | hours2 | hours4 | hours6 | hours12 | day => 86400

/-- Embeds Python's built-in `round` on an exactly represented real number:
round to the nearest integer, ties to the even integer. -/
def pround (q : ℚ) : ℤ :=
  if q - ⌊q⌋ < 1/2 then ⌊q⌋
  else if 1/2 < q - ⌊q⌋ then ⌊q⌋ + 1
  else if ⌊q⌋ % 2 = 0 then ⌊q⌋ else ⌊q⌋ + 1

/-- The rounding-function dispatch at the top of `round_time`: `'nearest'`
selects Python `round`, `'up'` selects `math.ceil`, and every other string
falls into the final `else` branch, which selects `math.floor`. -/
def round_func_of (mode : String) : ℚ → ℤ :=
  if mode = "nearest" then pround
  else if mode = "up" then fun q => ⌈q⌉
  else fun q => ⌊q⌋

/-- Embeds `round_time(dt, grain, mode)`:
`res = TimeTick.granularity(grain)` seconds, `tail = time_tail(dt, ...)`,
`trunced = dt - tail`, result `timedelta(seconds=res * round_func(
tail.total_seconds() / res)) + trunced`.  All quantities are exact here
(`res` and the rounded count are integers), so the added `timedelta` is
`res * count` whole seconds. -/
def round_time (w : ℤ) (grain : TickMode) (mode : String) : ℤ :=
  let round_func := round_func_of mode
  let res : ℤ := (granularity grain : ℤ)
  let tail : ℤ := time_tail w (tail_length grain)
  let trunced : ℤ := w - tail
  res * 1000000 * round_func ((tail : ℚ) / 1000000 / (res : ℚ)) + trunced

/-! Basic facts about the granularity table. -/

theorem scale_factor_pos (m : TickMode) : 0 < scale_factor m := by
  cases m <;> decide

theorem granularity_pos (m : TickMode) : 0 < granularity m := by
  cases m <;> decide

theorem granularity_mul_scale_factor (m : TickMode) :
    granularity m * scale_factor m = 86400 := by
  cases m <;> decide

theorem granularity_dvd_head (m : TickMode) :
    granularity m ∣ head_seconds m := by
  cases m <;> decide

/-- The tail that `round_time` computes is exactly the wall clock reduced
modulo the head unit of the grain. -/
theorem time_tail_eq_emod (m : TickMode) (w : ℤ) :
    time_tail w (tail_length m) = w % (head_seconds m * 1000000 : ℤ) := by
  cases m <;>
    simp only [time_tail, tail_length, head_seconds, py_microsecond, py_second,
      py_minute, py_hour] <;>
    norm_num <;> omega

/-! Facts about the rounding helpers. -/

theorem pround_intCast (k : ℤ) : pround ((k : ℚ)) = k := by
  simp [pround, Int.floor_intCast]

theorem abs_pround_sub_le (q : ℚ) : |(pround q : ℚ) - q| ≤ 1/2 := by
  have h0 : (0:ℚ) ≤ q - ⌊q⌋ := sub_nonneg.mpr (Int.floor_le q)
  have h1 : q - (⌊q⌋ : ℚ) < 1 := by
    have := Int.lt_floor_add_one q
    linarith
  unfold pround
  split_ifs with hlt hgt _
  · rw [abs_le]; constructor <;> linarith
  · rw [abs_le]; constructor <;> push_cast <;> linarith
  · rw [abs_le]; constructor <;> linarith
  · rw [abs_le]; constructor <;> push_cast <;> linarith

theorem round_func_of_down (q : ℚ) : round_func_of "down" q = ⌊q⌋ := by
  simp [round_func_of]

theorem round_func_of_up (q : ℚ) : round_func_of "up" q = ⌈q⌉ := by
  simp [round_func_of]

theorem round_func_of_nearest (q : ℚ) : round_func_of "nearest" q = pround q := by
  simp [round_func_of]

theorem round_func_of_other (mode : String) (h1 : mode ≠ "nearest")
    (h2 : mode ≠ "up") (q : ℚ) : round_func_of mode q = ⌊q⌋ := by
  simp [round_func_of, h1, h2]

theorem round_func_of_intCast (mode : String) (k : ℤ) :
    round_func_of mode ((k : ℚ)) = k := by
  unfold round_func_of
  split_ifs
  · exact pround_intCast k
  · exact Int.ceil_intCast k
  · exact Int.floor_intCast k

theorem res_us_pos (g : TickMode) : 0 < (granularity g : ℤ) * 1000000 := by
  have := granularity_pos g
  positivity

theorem res_us_dvd_head_us (g : TickMode) :
    (granularity g : ℤ) * 1000000 ∣ (head_seconds g : ℤ) * 1000000 := by
  have h := granularity_dvd_head g
  exact mul_dvd_mul_right (Int.natCast_dvd_natCast.mpr h) 1000000

/-- `round_time` in closed form: head part plus the rounded count of whole
grains in the tail, all in microseconds. -/
theorem round_time_eval (w : ℤ) (g : TickMode) (mode : String) :
    round_time w g mode =
      (granularity g : ℤ) * 1000000 *
          round_func_of mode
            (((w % ((head_seconds g : ℤ) * 1000000) : ℤ) : ℚ) /
              (((granularity g : ℤ) * 1000000 : ℤ) : ℚ)) +
        (w - w % ((head_seconds g : ℤ) * 1000000)) := by
  have harg :
      ((w % ((head_seconds g : ℤ) * 1000000) : ℤ) : ℚ) / 1000000 /
          (((granularity g : ℤ)) : ℚ) =
        ((w % ((head_seconds g : ℤ) * 1000000) : ℤ) : ℚ) /
          (((granularity g : ℤ) * 1000000 : ℤ) : ℚ) := by
    rw [div_div]
    push_cast
    ring_nf
  simp only [round_time, time_tail_eq_emod, harg]

theorem mul_floor_div_le (a d : ℤ) (hd : 0 < d) :
    d * ⌊(a : ℚ) / (d : ℚ)⌋ ≤ a := by
  have hdq : (0:ℚ) < (d:ℚ) := by exact_mod_cast hd
  have h := Int.floor_le ((a : ℚ) / (d : ℚ))
  have h2 : (d:ℚ) * (⌊(a : ℚ) / (d : ℚ)⌋ : ℚ) ≤ (d:ℚ) * ((a : ℚ) / (d : ℚ)) :=
    mul_le_mul_of_nonneg_left h hdq.le
  rw [mul_div_cancel₀ _ hdq.ne'] at h2
  exact_mod_cast h2

theorem le_mul_ceil_div (a d : ℤ) (hd : 0 < d) :
    a ≤ d * ⌈(a : ℚ) / (d : ℚ)⌉ := by
  have hdq : (0:ℚ) < (d:ℚ) := by exact_mod_cast hd
  have h := Int.le_ceil ((a : ℚ) / (d : ℚ))
  have h2 : (d:ℚ) * ((a : ℚ) / (d : ℚ)) ≤ (d:ℚ) * (⌈(a : ℚ) / (d : ℚ)⌉ : ℚ) :=
    mul_le_mul_of_nonneg_left h hdq.le
  rw [mul_div_cancel₀ _ hdq.ne'] at h2
  exact_mod_cast h2

theorem round_func_mul_of_dvd (mode : String) (a d : ℤ) (hd : d ≠ 0)
    (hdvd : d ∣ a) : d * round_func_of mode ((a : ℚ) / (d : ℚ)) = a := by
  obtain ⟨c, rfl⟩ := hdvd
  have harg : ((d * c : ℤ) : ℚ) / (d : ℚ) = ((c : ℤ) : ℚ) := by
    have hdq : (d:ℚ) ≠ 0 := by exact_mod_cast hd
    push_cast
    field_simp
  rw [harg, round_func_of_intCast]

/-- The head part `w - w % head` is a multiple of the grain. -/
theorem res_us_dvd_head_part (g : TickMode) (w : ℤ) :
    (granularity g : ℤ) * 1000000 ∣ (w - w % ((head_seconds g : ℤ) * 1000000)) := by
  have h : w - w % ((head_seconds g : ℤ) * 1000000) =
      (head_seconds g : ℤ) * 1000000 * (w / ((head_seconds g : ℤ) * 1000000)) := by
    rw [Int.emod_def]
    ring
  rw [h]
  exact Dvd.dvd.mul_right (res_us_dvd_head_us g) _

/-- Every result of `round_time` is an exact boundary of its grain. -/
theorem round_time_dvd (w : ℤ) (g : TickMode) (mode : String) :
    (granularity g : ℤ) * 1000000 ∣ round_time w g mode := by
  rw [round_time_eval]
  exact dvd_add (dvd_mul_right _ _) (res_us_dvd_head_part g w)

/-- `round_time` fixes exact boundaries of its grain, whatever the mode. -/
theorem round_time_fixed (v : ℤ) (g : TickMode) (mode : String)
    (h : (granularity g : ℤ) * 1000000 ∣ v) : round_time v g mode = v := by
  have h1 := res_us_dvd_head_part g v
  have htail : (granularity g : ℤ) * 1000000 ∣ v % ((head_seconds g : ℤ) * 1000000) := by
    have h2 : v % ((head_seconds g : ℤ) * 1000000) =
        v - (v - v % ((head_seconds g : ℤ) * 1000000)) := by ring
    rw [h2]
    exact dvd_sub h h1
  have h3 : (granularity g : ℤ) * 1000000 *
      round_func_of mode
        (((v % ((head_seconds g : ℤ) * 1000000) : ℤ) : ℚ) /
          (((granularity g : ℤ) * 1000000 : ℤ) : ℚ)) =
      v % ((head_seconds g : ℤ) * 1000000) :=
    round_func_mul_of_dvd mode _ _ (res_us_pos g).ne' htail
  rw [round_time_eval, h3]
  ring

theorem round_time_down_le (w : ℤ) (g : TickMode) : round_time w g "down" ≤ w := by
  rw [round_time_eval, round_func_of_down]
  have h := mul_floor_div_le (w % ((head_seconds g : ℤ) * 1000000))
    ((granularity g : ℤ) * 1000000) (res_us_pos g)
  linarith

theorem le_round_time_up (w : ℤ) (g : TickMode) : w ≤ round_time w g "up" := by
  rw [round_time_eval, round_func_of_up]
  have h := le_mul_ceil_div (w % ((head_seconds g : ℤ) * 1000000))
    ((granularity g : ℤ) * 1000000) (res_us_pos g)
  linarith

/-- C4: for every timestamp `t` and grain `g`, `round_time(t, g, 'down') <= t
<= round_time(t, g, 'up')`, both results are exact `g`-boundaries (multiples
of the grain duration in microseconds), and when `t` is already exactly on a
`g`-boundary, `round_time(t, g, 'up') = t` (rounding up never skips past an
exact boundary). -/
theorem claim4_rounding_sandwich (w : ℤ) (g : TickMode) :
    round_time w g "down" ≤ w ∧ w ≤ round_time w g "up" ∧
    (granularity g : ℤ) * 1000000 ∣ round_time w g "down" ∧
    (granularity g : ℤ) * 1000000 ∣ round_time w g "up" ∧
    ((granularity g : ℤ) * 1000000 ∣ w → round_time w g "up" = w) :=
  ⟨round_time_down_le w g, le_round_time_up w g, round_time_dvd w g "down",
    round_time_dvd w g "up", fun h => round_time_fixed w g "up" h⟩

/-- Witness for C4 at `t` = 1970-01-01 00:02:00 and grain `minute`: the
timestamp is on a minute boundary and rounding up returns it unchanged. -/
theorem claim4_witness :
    round_time 120000000 TickMode.minute "up" = 120000000 :=
  (claim4_rounding_sandwich 120000000 TickMode.minute).2.2.2.2 ⟨2, by decide⟩

/-- C8 (amended form not needed - confirmed): rounding is idempotent for the
three modes `nearest`, `up`, `down`. -/
theorem claim8_round_idempotent (w : ℤ) (g : TickMode) (mode : String)
    (_h : mode = "nearest" ∨ mode = "up" ∨ mode = "down") :
    round_time (round_time w g mode) g mode = round_time w g mode :=
  round_time_fixed (round_time w g mode) g mode (round_time_dvd w g mode)

/-- Witness for C8: idempotence at a concrete input with mode `nearest`. -/
theorem claim8_witness :
    round_time (round_time 116000000 TickMode.minute "nearest")
      TickMode.minute "nearest" = round_time 116000000 TickMode.minute "nearest" :=
  claim8_round_idempotent 116000000 TickMode.minute "nearest" (Or.inl rfl)

/-- C6 counterexample: calling `round_time` with the invalid mode
`"sideways"` on 1970-01-01 00:01:56 does not fail - it returns the
floor-rounded result 00:01:00. -/
theorem claim6_counterexample :
    round_time 116000000 TickMode.minute "sideways" = 60000000 := by
  rw [round_time_eval, round_func_of_other "sideways" (by decide) (by decide)]
  norm_num [granularity, scale_factor, head_seconds]

/-- C6 amended: a rounding mode outside `{nearest, up, down}` is not rejected;
`round_time` silently falls into the final `else` branch and rounds down. -/
theorem claim6_invalid_mode_rounds_down (w : ℤ) (g : TickMode) (mode : String)
    (h1 : mode ≠ "nearest") (h2 : mode ≠ "up") :
    round_time w g mode = round_time w g "down" := by
  simp only [round_time, round_func_of_other mode h1 h2, round_func_of_down]

/-- Witness for C6 amended at the concrete invalid mode `"sideways"`. -/
theorem claim6_witness :
    round_time 116000000 TickMode.minute "sideways" =
      round_time 116000000 TickMode.minute "down" :=
  claim6_invalid_mode_rounds_down 116000000 TickMode.minute "sideways"
    (by decide) (by decide)

/-! The tick generator: `TimeTick.time_min_max` and `TimeTick.tick_iter`. -/

/-- The slice of `Tickline` state that `tick_iter`/`time_min_max` read:
`time_0`/`time_1` (window boundary datetimes, wall-clock microseconds),
the `backward` flag, the mode of `densest_tick`, and the float `scale`. -/
structure TicklineCfg where
  time_0 : ℤ
  time_1 : ℤ
  backward : Bool
  densest_tick_mode : TickMode
  scale : ℚ

/-- Modelled from the spec: `Tick.scale` is inherited from the `tickline`
base package, which is a dependency, not part of this repository.  Per the
spec, a tick's on-screen spacing at a window scale is the scale divided by
the mode's scale factor (the axis unit is one day, of which this mode has
`scale_factor` ticks).  Both `tick_iter`'s `min_space` test and
`TimeLabeller.register`'s `min_label_space` test apply this quantity; the
two thresholds themselves are likewise base-class attributes and are taken
as parameters. -/
def tick_scale (m : TickMode) (sc : ℚ) : ℚ := sc / (scale_factor m : ℚ)

/-- Embeds `TimeTick.time_min_max(tl, extended)`: order `time_0`/`time_1`
by the `backward` flag, and if `extended`, widen each end by one duration of
the densest tick's granularity (`TimeTick.granularity(tl.densest_tick.mode)`
seconds - note: the densest configured mode, not the iterating tick's own
mode). -/
def time_min_max (tl : TicklineCfg) (extended : Bool) : ℤ × ℤ :=
  let p := if tl.backward then (tl.time_1, tl.time_0) else (tl.time_0, tl.time_1)
  if extended then
    (p.1 - (granularity tl.densest_tick_mode : ℤ) * 1000000,
     p.2 + (granularity tl.densest_tick_mode : ℤ) * 1000000)
  else p

/-- Embeds the `while time <= time_max: yield time; time += delta` loop of
`tick_iter` as a fuel-bounded recursion returning the yielded times and the
final value of `time`.  Callers pass `num_ticks`, which is exactly the
number of iterations the Python loop performs (the loop always terminates
because `delta` is one granularity-duration, which is positive). -/
def tick_loop : ℕ → ℤ → ℤ → ℤ → List ℤ × ℤ
  | 0, time, _, _ => ([], time)
  | fuel + 1, time, time_max, delta =>
    if time ≤ time_max then
      let r := tick_loop fuel (time + delta) time_max delta
      (time :: r.1, r.2)
    else ([], time)

/-- The iteration count of the `tick_iter` loop: zero when the start is
already past `time_max`, else one plus the number of whole `delta` steps
that fit. -/
def num_ticks (time time_max delta : ℤ) : ℕ :=
  if time_max < time then 0 else (time_max - time).toNat / delta.toNat + 1

/-- Embeds `TimeTick.tick_iter(tl)`: empty when the tick's on-screen scale
is below `min_space` (the generator raises `StopIteration` immediately);
otherwise take the extended window, round its start up to the mode's
boundary, and yield every `granularity(mode)` seconds while within the
extended maximum.  In `day` mode one extra boundary is yielded: one day
before the first when `backward`, else the final value of `time` (the first
boundary past the window) after the loop. -/
def tick_iter (m : TickMode) (tl : TicklineCfg) (min_space : ℚ) : List ℤ :=
  if tick_scale m tl.scale < min_space then []
  else
    let p := time_min_max tl true
    let time := round_time p.1 m "up"
    let delta : ℤ := (granularity m : ℤ) * 1000000
    let r := tick_loop (num_ticks time p.2 delta) time p.2 delta
    (if m = TickMode.day ∧ tl.backward = true then [time - 86400000000] else []) ++
      r.1 ++
      (if m = TickMode.day ∧ tl.backward = false then [r.2] else [])

/-- The arithmetic progression `t, t+d, ..., t+d*(n-1)`; the loop of
`tick_iter` produces exactly such a progression. -/
def arith_seq (t d : ℤ) : ℕ → List ℤ
  | 0 => []
  | n + 1 => t :: arith_seq (t + d) d n

theorem arith_seq_length (t d : ℤ) (n : ℕ) : (arith_seq t d n).length = n := by
  induction n generalizing t with
  | zero => rfl
  | succ n ih => simp [arith_seq, ih]

theorem arith_seq_concat (t d : ℤ) (n : ℕ) :
    arith_seq t d (n + 1) = arith_seq t d n ++ [t + d * n] := by
  induction n generalizing t with
  | zero => simp [arith_seq]
  | succ n ih =>
    rw [show arith_seq t d (n + 1 + 1) = t :: arith_seq (t + d) d (n + 1) from rfl,
      ih (t + d)]
    simp [arith_seq]
    ring

theorem arith_seq_chain (t d : ℤ) (n : ℕ) :
    List.Chain' (fun a b => b = a + d) (arith_seq t d n) := by
  induction n generalizing t with
  | zero => exact List.chain'_nil
  | succ n ih =>
    cases n with
    | zero => simp [arith_seq]
    | succ k =>
      rw [show arith_seq t d (k + 1 + 1) = t :: arith_seq (t + d) d (k + 1) from rfl,
        show arith_seq (t + d) d (k + 1) = (t + d) :: arith_seq (t + d + d) d k from rfl,
        List.chain'_cons]
      exact ⟨rfl, by
        rw [← show arith_seq (t + d) d (k + 1) = (t + d) :: arith_seq (t + d + d) d k from rfl]
        exact ih (t + d)⟩

/-- With the fuel `num_ticks` that `tick_iter` passes, the loop produces the
arithmetic progression starting at `time`, and its final `time` value is
one step past the last yielded element. -/
theorem tick_loop_eq (d : ℤ) (hd : 0 < d) :
    ∀ (n : ℕ) (t tmax : ℤ), num_ticks t tmax d = n →
      tick_loop n t tmax d = (arith_seq t d n, t + d * n) := by
  intro n
  induction n with
  | zero =>
    intro t tmax _
    simp [tick_loop, arith_seq]
  | succ n ih =>
    intro t tmax h
    have hle : t ≤ tmax := by
      by_contra hlt
      push_neg at hlt
      rw [num_ticks, if_pos hlt] at h
      exact Nat.succ_ne_zero n h.symm
    have hA : (tmax - t).toNat / d.toNat + 1 = n + 1 := by
      rw [num_ticks, if_neg (not_lt.mpr hle)] at h
      exact h
    have hD : 0 < d.toNat := by omega
    have hnext : num_ticks (t + d) tmax d = n := by
      rcases lt_or_le tmax (t + d) with hc | hc
      · rw [num_ticks, if_pos hc]
        have hAD : (tmax - t).toNat < d.toNat := by omega
        rw [Nat.div_eq_of_lt hAD] at hA
        omega
      · rw [num_ticks, if_neg (not_lt.mpr hc)]
        have hDA : d.toNat ≤ (tmax - t).toNat := by omega
        have hsub : (tmax - (t + d)).toNat = (tmax - t).toNat - d.toNat := by omega
        rw [Nat.div_eq_sub_div hD hDA] at hA
        rw [hsub]
        omega
    have hrec := ih (t + d) tmax hnext
    simp only [tick_loop, if_pos hle, hrec]
    have h2 : t + d + d * (n : ℤ) = t + d * ((n + 1 : ℕ) : ℤ) := by push_cast; ring
    rw [show arith_seq t d (n + 1) = t :: arith_seq (t + d) d n from rfl, ← h2]

/-- `tick_iter` in closed form when the scale test passes: the optional
backward-day extra tick, the loop's arithmetic progression, and the optional
forward-day extra tick. -/
theorem tick_iter_eval (m : TickMode) (tl : TicklineCfg) (ms : ℚ)
    (h : ¬ tick_scale m tl.scale < ms) :
    tick_iter m tl ms =
      (if m = TickMode.day ∧ tl.backward = true then
        [round_time (time_min_max tl true).1 m "up" - 86400000000] else []) ++
      arith_seq (round_time (time_min_max tl true).1 m "up")
        ((granularity m : ℤ) * 1000000)
        (num_ticks (round_time (time_min_max tl true).1 m "up")
          (time_min_max tl true).2 ((granularity m : ℤ) * 1000000)) ++
      (if m = TickMode.day ∧ tl.backward = false then
        [round_time (time_min_max tl true).1 m "up" +
          (granularity m : ℤ) * 1000000 *
            (num_ticks (round_time (time_min_max tl true).1 m "up")
              (time_min_max tl true).2 ((granularity m : ℤ) * 1000000) : ℤ)]
       else []) := by
  simp only [tick_iter, if_neg h,
    tick_loop_eq ((granularity m : ℤ) * 1000000) (res_us_pos m) _ _ _ rfl]

/-- Every `tick_iter` result is an arithmetic progression with step one
granularity-duration (possibly empty). -/
theorem tick_iter_is_arith_seq (m : TickMode) (tl : TicklineCfg) (ms : ℚ) :
    tick_iter m tl ms = [] ∨
    ∃ (t0 : ℤ) (n0 : ℕ),
      tick_iter m tl ms = arith_seq t0 ((granularity m : ℤ) * 1000000) n0 := by
  by_cases h : tick_scale m tl.scale < ms
  · left
    simp [tick_iter, if_pos h]
  · right
    rw [tick_iter_eval m tl ms h]
    set t := round_time (time_min_max tl true).1 m "up" with ht
    set d : ℤ := (granularity m : ℤ) * 1000000 with hd
    set n := num_ticks t (time_min_max tl true).2 d with hn
    by_cases hm : m = TickMode.day
    · subst hm
      have hday : (86400000000 : ℤ) = d := by rw [hd]; decide
      cases hb : tl.backward with
      | true =>
        refine ⟨t - d, n + 1, ?_⟩
        simp only [hb, hday]
        rw [show arith_seq (t - d) d (n + 1) = (t - d) :: arith_seq (t - d + d) d n from rfl]
        simp [sub_add_cancel]
      | false =>
        refine ⟨t, n + 1, ?_⟩
        simp only [hb]
        rw [arith_seq_concat]
        simp
  
    · refine ⟨t, n, ?_⟩
      simp [hm]

/-- `tick_iter_eval` restated against an explicitly given extended window. -/
theorem tick_iter_eval_window (m : TickMode) (tl : TicklineCfg) (ms : ℚ)
    (h : ¬ tick_scale m tl.scale < ms) (tmin tmax : ℤ)
    (htm : time_min_max tl true = (tmin, tmax)) :
    tick_iter m tl ms =
      (if m = TickMode.day ∧ tl.backward = true then
        [round_time tmin m "up" - 86400000000] else []) ++
      arith_seq (round_time tmin m "up") ((granularity m : ℤ) * 1000000)
        (num_ticks (round_time tmin m "up") tmax ((granularity m : ℤ) * 1000000)) ++
      (if m = TickMode.day ∧ tl.backward = false then
        [round_time tmin m "up" +
          (granularity m : ℤ) * 1000000 *
            (num_ticks (round_time tmin m "up") tmax
              ((granularity m : ℤ) * 1000000) : ℤ)]
       else []) := by
  rw [tick_iter_eval m tl ms h, htm]

theorem num_ticks_le (time tmax d : ℤ) (lo : ℤ) (hlo : lo ≤ time) :
    num_ticks time tmax d ≤ (tmax - lo).toNat / d.toNat + 1 := by
  unfold num_ticks
  split_ifs with hc
  · exact Nat.zero_le _
  · have h1 : (tmax - time).toNat ≤ (tmax - lo).toNat := by omega
    have h2 : (tmax - time).toNat / d.toNat ≤ (tmax - lo).toNat / d.toNat :=
      Nat.div_le_div_right h1
    exact Nat.add_le_add_right h2 1

theorem tick_scale_nonpos (m : TickMode) (sc : ℚ) (h : sc ≤ 0) :
    tick_scale m sc ≤ 0 := by
  unfold tick_scale
  apply div_nonpos_iff.mpr
  right
  exact ⟨h, by positivity⟩

/-- C2: for every window configuration and granularity, consecutive
timestamps yielded by `tick_iter` differ by exactly `granularity(mode)`
seconds, and the whole sequence is strictly increasing. -/
theorem claim2_monotonic_ticks (m : TickMode) (tl : TicklineCfg) (ms : ℚ) :
    List.Chain' (fun a b : ℤ => b = a + (granularity m : ℤ) * 1000000)
      (tick_iter m tl ms) ∧
    List.Pairwise (· < ·) (tick_iter m tl ms) := by
  rcases tick_iter_is_arith_seq m tl ms with h | ⟨t0, n0, h⟩
  · rw [h]
    exact ⟨List.chain'_nil, List.Pairwise.nil⟩
  · rw [h]
    refine ⟨arith_seq_chain _ _ _, ?_⟩
    have hd := res_us_pos m
    have hlt : List.Chain' (· < ·)
        (arith_seq t0 ((granularity m : ℤ) * 1000000) n0) :=
      (arith_seq_chain t0 _ n0).imp (fun a b hab => by omega)
    exact List.chain'_iff_pairwise.mp hlt

/-- C1 counterexample: the degenerate window `index_0 = index_1` (both
boundary times equal, here the epoch instant), granularity `minute`,
densest configured granularity `second`, and a scale that passes the
minimum-size test, yields a nonempty tick sequence - not the empty sequence
the claim requires: the one-densest-granularity extension makes the
degenerate window nonempty. -/
theorem claim1_counterexample :
    tick_iter TickMode.minute ⟨0, 0, false, TickMode.second, 14400⟩ 1 ≠ [] := by
  have hscale : ¬ tick_scale TickMode.minute
      (TicklineCfg.mk 0 0 false TickMode.second 14400).scale < 1 := by
    norm_num [tick_scale, scale_factor]
  have htm : time_min_max ⟨0, 0, false, TickMode.second, 14400⟩ true =
      (-1000000, 1000000) := by decide
  rw [tick_iter_eval_window TickMode.minute _ 1 hscale _ _ htm]
  have hup : round_time (-1000000) TickMode.minute "up" = 0 := by
    have hmod : ((-1000000 : ℤ) % ((head_seconds TickMode.minute : ℤ) * 1000000)) =
        59000000 := by decide
    have hden : (((granularity TickMode.minute : ℤ) * 1000000 : ℤ) : ℚ) =
        60000000 := by norm_num [granularity, scale_factor]
    rw [round_time_eval, round_func_of_up, hmod, hden]
    have hceil : ⌈((59000000 : ℤ) : ℚ) / (60000000 : ℚ)⌉ = 1 := by
      rw [Int.ceil_eq_iff]
      norm_num
    rw [hceil]
    decide
  rw [hup]
  decide

/-- C1 amended: `tick_iter` cannot fail or loop - it always returns a
finite list.  When `scale <= 0` (and the minimum tick size is positive) the
list is empty, and on a degenerate window `time_0 = time_1` its length is
bounded by twice the densest granularity over the iterated granularity plus
two - but it is not in general empty (see the counterexample). -/
theorem claim1_degenerate_window_bounded (m : TickMode) (tl : TicklineCfg)
    (ms : ℚ) (hms : 0 < ms) :
    (tl.scale ≤ 0 → tick_iter m tl ms = []) ∧
    (tl.time_0 = tl.time_1 →
      (tick_iter m tl ms).length ≤
        2 * granularity tl.densest_tick_mode / granularity m + 2) := by
  constructor
  · intro hsc
    have h := lt_of_le_of_lt (tick_scale_nonpos m tl.scale hsc) hms
    simp [tick_iter, if_pos h]
  · intro h01
    by_cases h : tick_scale m tl.scale < ms
    · simp [tick_iter, if_pos h]
    · have htm : time_min_max tl true =
          (tl.time_0 - (granularity tl.densest_tick_mode : ℤ) * 1000000,
           tl.time_0 + (granularity tl.densest_tick_mode : ℤ) * 1000000) := by
        unfold time_min_max
        cases hb : tl.backward <;> simp [hb, ← h01]
      rw [tick_iter_eval_window m tl ms h _ _ htm]
      set i : ℤ := (granularity tl.densest_tick_mode : ℤ) * 1000000 with hi
      set d : ℤ := (granularity m : ℤ) * 1000000 with hd
      set t := round_time (tl.time_0 - i) m "up" with ht2
      set n := num_ticks t (tl.time_0 + i) d with hn
      have htmin : tl.time_0 - i ≤ t := le_round_time_up _ m
      have hnle : n ≤ 2 * granularity tl.densest_tick_mode / granularity m + 1 := by
        have h1 : n ≤ ((tl.time_0 + i) - (tl.time_0 - i)).toNat / d.toNat + 1 :=
          num_ticks_le t (tl.time_0 + i) d (tl.time_0 - i) htmin
        have h2 : ((tl.time_0 + i) - (tl.time_0 - i)).toNat =
            2 * granularity tl.densest_tick_mode * 1000000 := by
          rw [hi]; omega
        have h3 : d.toNat = granularity m * 1000000 := by rw [hd]; omega
        have h4 : 2 * granularity tl.densest_tick_mode * 1000000 /
            (granularity m * 1000000) =
            2 * granularity tl.densest_tick_mode / granularity m :=
          Nat.mul_div_mul_right _ _ (by norm_num)
        rw [h2, h3, h4] at h1
        exact h1
      rw [List.length_append, List.length_append, arith_seq_length]
      split_ifs with hb1 hb2 hb3
      · exact absurd (hb1.2.symm.trans hb2.2) (by decide)
      · simp only [List.length_singleton, List.length_nil]
        omega
      · simp only [List.length_singleton, List.length_nil]
        omega
      · simp only [List.length_nil]
        omega

/-- Witness for C1 amended: with `scale = 0` the sequence is empty, and the
epoch-degenerate window from the counterexample satisfies the length bound. -/
theorem claim1_witness :
    tick_iter TickMode.minute ⟨0, 0, false, TickMode.second, 0⟩ 1 = [] ∧
    (tick_iter TickMode.minute ⟨0, 0, false, TickMode.second, 14400⟩ 1).length ≤
      2 * granularity TickMode.second / granularity TickMode.minute + 2 :=
  ⟨(claim1_degenerate_window_bounded TickMode.minute
      ⟨0, 0, false, TickMode.second, 0⟩ 1 (by norm_num)).1 (by norm_num),
   (claim1_degenerate_window_bounded TickMode.minute
      ⟨0, 0, false, TickMode.second, 14400⟩ 1 (by norm_num)).2 rfl⟩

/-- Rounding up to the minute from fifty-nine seconds past a minute advances
by one second to the next boundary. -/
theorem round_time_up_59s (w : ℤ) (hm : w % 60000000 = 59000000) :
    round_time w TickMode.minute "up" = w + 1000000 := by
  have hmod : (w % ((head_seconds TickMode.minute : ℤ) * 1000000)) = 59000000 := by
    have hh : ((head_seconds TickMode.minute : ℤ) * 1000000) = 60000000 := by decide
    rw [hh, hm]
  have hden : (((granularity TickMode.minute : ℤ) * 1000000 : ℤ) : ℚ) =
      60000000 := by norm_num [granularity, scale_factor]
  rw [round_time_eval, round_func_of_up, hmod, hden]
  have hceil : ⌈((59000000 : ℤ) : ℚ) / (60000000 : ℚ)⌉ = 1 := by
    rw [Int.ceil_eq_iff]
    norm_num
  rw [hceil]
  have hg : ((granularity TickMode.minute : ℤ)) = 60 := by decide
  rw [hg]
  ring

/-- C5 counterexample: granularity `minute`, window 12:00:00-12:03:00 UTC on
1970-01-01 (43200 s to 43380 s after midnight), scale passing the minimum
size, densest configured granularity `second`: the generator does not yield
5 timestamps.  The window is extended by one *densest* granularity (1 s) on
each side, so 11:59:00 is never reached and only 12:00-12:03 appear. -/
theorem claim5_counterexample :
    (tick_iter TickMode.minute
      ⟨43200000000, 43380000000, false, TickMode.second, 1440⟩ 1).length ≠ 5 := by
  have hscale : ¬ tick_scale TickMode.minute
      (TicklineCfg.mk 43200000000 43380000000 false TickMode.second 1440).scale < 1 := by
    norm_num [tick_scale, scale_factor]
  have htm : time_min_max ⟨43200000000, 43380000000, false, TickMode.second, 1440⟩
      true = (43199000000, 43381000000) := by decide
  rw [tick_iter_eval_window TickMode.minute _ 1 hscale _ _ htm,
    round_time_up_59s 43199000000 (by decide)]
  decide

/-- C5 amended: the extension of the window is one duration of the densest
configured granularity on each side for every mode's iteration (not one
duration of the iterating granularity, and not only for `day`).  On the
3-minute window 12:00:00-12:03:00 with granularity `minute`: with densest
granularity `second` the generator yields exactly the 4 boundaries
12:00, 12:01, 12:02, 12:03 spaced 60 s; when the minute tick itself is the
densest, the extension is a full minute on each side and the generator
yields 6 boundaries 11:59 through 12:04. -/
theorem claim5_scenario_a_corrected :
    tick_iter TickMode.minute
      ⟨43200000000, 43380000000, false, TickMode.second, 1440⟩ 1 =
      [43200000000, 43260000000, 43320000000, 43380000000] ∧
    tick_iter TickMode.minute
      ⟨43200000000, 43380000000, false, TickMode.minute, 1440⟩ 1 =
      [43140000000, 43200000000, 43260000000, 43320000000, 43380000000,
        43440000000] := by
  constructor
  · have hscale : ¬ tick_scale TickMode.minute
        (TicklineCfg.mk 43200000000 43380000000 false TickMode.second 1440).scale < 1 := by
      norm_num [tick_scale, scale_factor]
    have htm : time_min_max
        ⟨43200000000, 43380000000, false, TickMode.second, 1440⟩ true =
        (43199000000, 43381000000) := by decide
    rw [tick_iter_eval_window TickMode.minute _ 1 hscale _ _ htm,
      round_time_up_59s 43199000000 (by decide)]
    decide
  · have hscale : ¬ tick_scale TickMode.minute
        (TicklineCfg.mk 43200000000 43380000000 false TickMode.minute 1440).scale < 1 := by
      norm_num [tick_scale, scale_factor]
    have htm : time_min_max
        ⟨43200000000, 43380000000, false, TickMode.minute, 1440⟩ true =
        (43140000000, 43440000000) := by decide
    rw [tick_iter_eval_window TickMode.minute _ 1 hscale _ _ htm,
      round_time_fixed 43140000000 TickMode.minute "up" ⟨719, by decide⟩]
    decide

/-! The coordinate mapper: `TimeTick.datetime_of` and `TimeTick.index_of`. -/

/-- A timezone-aware Python datetime as the coordinate mapper handles it:
the absolute instant in UTC microseconds since the epoch, plus the attached
timezone's UTC offset in microseconds.  `astimezone` changes only the
offset, never the instant; subtraction of aware datetimes and
`total_seconds()` read only the instant. -/
structure PyDateTime where
  utc : ℤ
  off : ℤ
deriving DecidableEq

/-- Embeds `TimeTick.datetime_of(tick_index)` including its final
`t.astimezone(self.tz)`: for plain modes it builds
`timedelta(**{mode+'s': tick_index}) + unixepoch`, for composite `'k unit'`
modes `timedelta(**{unit: k * tick_index}) + unixepoch`; in every case the
timedelta is `tick_index * granularity(mode)` seconds, which the `timedelta`
constructor rounds to whole microseconds (half to even); `astimezone`
attaches the timezone (embedded by its offset) without moving the
instant. -/
def datetime_of (m : TickMode) (tick_index : ℚ) (tz : ℤ) : PyDateTime :=
  ⟨pround (tick_index * (((granularity m : ℤ) * 1000000 : ℤ) : ℚ)), tz⟩

/-- Modelled from the spec: `Tick.localize` is inherited from the `tickline`
base package, a dependency that is not part of this repository.  Per the
spec, the global (day-unit) axis index and a granularity-local index are
related by an exact linear transform by the ratio of their units, i.e.
`local = global * scale_factor(mode)` (consistent with `datetime_of`, which
interprets a local index as `granularity(mode)`-sized steps). -/
def localize (m : TickMode) (global_idx : ℚ) : ℚ :=
  global_idx * (scale_factor m : ℚ)

/-- Embeds `TimeTick.index_of(dt)` (with `global_=False`):
`secs = (dt - unixepoch).total_seconds()`, `global_idx = secs /
scale_factor_dict['second']`, returned through `localize`. -/
def index_of (m : TickMode) (dt : PyDateTime) : ℚ :=
  let secs : ℚ := (dt.utc : ℚ) / 1000000
  let global_idx : ℚ := secs / 86400
  localize m global_idx

/-- C3 counterexample: for granularity `second` and local index
`i = 1/2500000` (0.4 microseconds), the `timedelta` constructor rounds the
instant to the epoch itself, so the recovered index is 0 and the round-trip
error is `i` - far outside the claimed 1e-9 relative tolerance. -/
theorem claim3_counterexample :
    ¬ (|index_of TickMode.second (datetime_of TickMode.second (1/2500000) 7) -
        1/2500000| ≤ 1/1000000000 * |(1/2500000 : ℚ)|) := by
  have hp : pround ((1/2500000 : ℚ) *
      (((granularity TickMode.second : ℤ) * 1000000 : ℤ) : ℚ)) = 0 := by
    have harg : ((1/2500000 : ℚ) *
        (((granularity TickMode.second : ℤ) * 1000000 : ℤ) : ℚ)) = 2/5 := by
      norm_num [granularity, scale_factor]
    rw [harg]
    norm_num [pround]
  simp only [datetime_of, index_of, localize, hp]
  norm_num [scale_factor]

/-- Feeding a microsecond count through `index_of`'s seconds/day/localize
chain divides it by the mode's granularity in microseconds. -/
theorem localize_div_eq (m : TickMode) (u : ℚ) :
    localize m (u / 1000000 / 86400) = u / ((granularity m : ℚ) * 1000000) := by
  have hgs : (granularity m : ℚ) * (scale_factor m : ℚ) = 86400 := by
    exact_mod_cast granularity_mul_scale_factor m
  have hGpos : (0:ℚ) < (granularity m : ℚ) * 1000000 := by
    have h2 : (0:ℚ) < (granularity m : ℚ) := by
      exact_mod_cast granularity_pos m
    positivity
  unfold localize
  rw [div_div, eq_div_iff (ne_of_gt hGpos)]
  field_simp
  linear_combination u * 1000000 * hgs

/-- C3 amended: the index-to-datetime-to-index round trip recovers the
index up to the `timedelta` constructor's half-microsecond quantisation -
an absolute error of at most `1 / (2 * granularity(g) * 10^6)` local-index
units - and the result is completely independent of the timezone: changing
`tz` changes only the attached offset, never the absolute instant or the
recovered index. -/
theorem claim3_roundtrip_quantized (m : TickMode) (i : ℚ) (tz tz' : ℤ) :
    |index_of m (datetime_of m i tz) - i| ≤
      1 / (2 * ((granularity m : ℚ) * 1000000)) ∧
    index_of m (datetime_of m i tz) = index_of m (datetime_of m i tz') ∧
    (datetime_of m i tz).utc = (datetime_of m i tz').utc := by
  refine ⟨?_, rfl, rfl⟩
  have hGpos : (0:ℚ) < (granularity m : ℚ) * 1000000 := by
    have h2 : (0:ℚ) < (granularity m : ℚ) := by
      exact_mod_cast granularity_pos m
    positivity
  have harg : i * (((granularity m : ℤ) * 1000000 : ℤ) : ℚ) =
      i * ((granularity m : ℚ) * 1000000) := by
    push_cast
    ring
  have hRT : index_of m (datetime_of m i tz) =
      ((pround (i * ((granularity m : ℚ) * 1000000)) : ℤ) : ℚ) /
        ((granularity m : ℚ) * 1000000) := by
    simp only [index_of, datetime_of, harg]
    exact localize_div_eq m _
  have hsplit : ((pround (i * ((granularity m : ℚ) * 1000000)) : ℤ) : ℚ) /
        ((granularity m : ℚ) * 1000000) - i =
      (((pround (i * ((granularity m : ℚ) * 1000000)) : ℤ) : ℚ) -
          i * ((granularity m : ℚ) * 1000000)) /
        ((granularity m : ℚ) * 1000000) := by
    field_simp
    ring
  have h2 : (1:ℚ) / (2 * ((granularity m : ℚ) * 1000000)) =
      (1/2) / ((granularity m : ℚ) * 1000000) := by
    rw [div_div]
  rw [hRT, hsplit, abs_div, abs_of_pos hGpos, h2]
  exact (div_le_div_iff_of_pos_right hGpos).mpr (abs_pround_sub_le _)

/-! The label placer: `TimeLabeller.register`. -/

/-- Embeds `TimeTick.to_seconds(tick_index)`: `round(tick_index *
scale_factor_dict['second'] / scale_factor)`, the nearest whole number of
epoch seconds (Python `round`, i.e. half to even). -/
def to_seconds (m : TickMode) (tick_index : ℚ) : ℤ :=
  pround (tick_index * 86400 / (scale_factor m : ℚ))

/-- The `TimeLabeller` state that `register` reads and writes: the
registration keys `(tick, tick_index)` of `self.registrar` (the stored
`tick_info` payload does not affect which ticks get labels, so only the
keys are embedded), `self.seconds_registrar` as an association list with
the most recent entry first (Python dict assignment overwrites; lookups
here take the first match), and the `have_time` flag. -/
structure LabelState where
  registrar : List (TickMode × ℚ)
  seconds_registrar : List (ℤ × ℚ)
  have_time : Bool
deriving DecidableEq

/-- `self.seconds_registrar.get(seconds, 0)`. -/
def seconds_lookup (l : List (ℤ × ℚ)) (k : ℤ) : ℚ :=
  match l.find? (fun p => p.1 == k) with
  | some p => p.2
  | none => 0

/-- Embeds `TimeLabeller.register(tick, tick_index, tick_info)`: if the
tick's on-screen scale at the tickline's scale is below the tick's
`min_label_space`, return unchanged (the tick gets no label); otherwise, if
the current claimant size for this instant's epoch second is strictly
smaller than this tick's scale, mark `have_time` for non-day modes, record
the key in the registrar and overwrite the instant's claim - else return
unchanged.  `min_label_space` is a `tickline` base-class attribute (see
`tick_scale`) and is a parameter. -/
def register (s : LabelState) (m : TickMode) (tick_index : ℚ) (scale : ℚ)
    (min_label_space : ℚ) : LabelState :=
  let tick_sc := tick_scale m scale
  if tick_sc < min_label_space then s
  else
    let seconds := to_seconds m tick_index
    if seconds_lookup s.seconds_registrar seconds < tick_sc then
      { registrar := if (m, tick_index) ∈ s.registrar then s.registrar
                     else (m, tick_index) :: s.registrar,
        seconds_registrar := (seconds, tick_sc) :: s.seconds_registrar,
        have_time := s.have_time || decide (m ≠ TickMode.day) }
    else s

/-- C7 counterexample: register a `minute` tick and then a `day` tick at
the identical epoch second 0, with the coarser (`day`) tick larger on
screen.  Both keys remain in the registrar - the finer tick registered
first is never removed when the coarser wins the claim - so it is not true
that only the coarser tick is labelled. -/
theorem claim7_counterexample :
    ((TickMode.day, (0:ℚ)) ∈ (register (register ⟨[], [], false⟩
        TickMode.minute 0 1440 1) TickMode.day 0 1440 1).registrar) ∧
    ((TickMode.minute, (0:ℚ)) ∈ (register (register ⟨[], [], false⟩
        TickMode.minute 0 1440 1) TickMode.day 0 1440 1).registrar) ∧
    tick_scale TickMode.minute 1440 < tick_scale TickMode.day 1440 := by
  have hsec : ∀ m : TickMode, to_seconds m 0 = 0 := by
    intro m
    have h : (0:ℚ) * 86400 / (scale_factor m : ℚ) = ((0:ℤ) : ℚ) := by norm_num
    rw [to_seconds, h, pround_intCast]
  have hs1 : register ⟨[], [], false⟩ TickMode.minute 0 1440 1 =
      ⟨[(TickMode.minute, 0)], [(0, 1)], true⟩ := by
    have hsc : tick_scale TickMode.minute 1440 = 1 := by
      norm_num [tick_scale, scale_factor]
    simp only [register, hsc, hsec]
    norm_num [seconds_lookup, List.find?]
    decide
  have hs2 : register ⟨[(TickMode.minute, 0)], [(0, 1)], true⟩
      TickMode.day 0 1440 1 =
      ⟨[(TickMode.day, 0), (TickMode.minute, 0)], [(0, 1440), (0, 1)], true⟩ := by
    have hsc : tick_scale TickMode.day 1440 = 1440 := by
      norm_num [tick_scale, scale_factor]
    simp only [register, hsc, hsec]
    norm_num [seconds_lookup, List.find?]
    decide
  rw [hs1, hs2]
  refine ⟨by simp, by simp, by norm_num [tick_scale, scale_factor]⟩

/-- Below its minimum label spacing, `register` changes nothing. -/
theorem register_drop_small (s : LabelState) (m : TickMode) (i sc mls : ℚ)
    (h : tick_scale m sc < mls) : register s m i sc mls = s := by
  simp only [register, if_pos h]

/-- When the instant's existing claim is at least as large, `register`
changes nothing. -/
theorem register_drop_claimed (s : LabelState) (m : TickMode) (i sc mls : ℚ)
    (h1 : ¬ tick_scale m sc < mls)
    (h2 : ¬ seconds_lookup s.seconds_registrar (to_seconds m i) < tick_scale m sc) :
    register s m i sc mls = s := by
  simp only [register, if_neg h1, if_neg h2]

/-- A winning registration records the key and overwrites the claim. -/
theorem register_win (s : LabelState) (m : TickMode) (i sc mls : ℚ)
    (h1 : ¬ tick_scale m sc < mls)
    (h2 : seconds_lookup s.seconds_registrar (to_seconds m i) < tick_scale m sc) :
    (register s m i sc mls).registrar =
      (if (m, i) ∈ s.registrar then s.registrar else (m, i) :: s.registrar) ∧
    (register s m i sc mls).seconds_registrar =
      (to_seconds m i, tick_scale m sc) :: s.seconds_registrar := by
  simp only [register, if_neg h1, if_pos h2]
  exact ⟨trivial, trivial⟩

/-- C7 amended: in `register`, (1) a tick whose on-screen scale is below its
minimum label spacing is dropped with no state change; (2) a registration at
an instant whose existing claim has size greater than or equal to the new
tick's size is dropped with no state change; (3) otherwise the tick is
recorded and its size overwrites the instant's claim; and therefore
(4) when the coarser (larger on-screen) of two ticks at the identical epoch
second registers *first*, the later finer tick is suppressed and only the
coarser one is labelled.  (When the finer tick registers first, its
registrar entry survives the coarser tick's later win - see the
counterexample - so the order qualification is necessary.) -/
theorem claim7_register_suppression :
    (∀ (s : LabelState) (m : TickMode) (i sc mls : ℚ),
      tick_scale m sc < mls → register s m i sc mls = s) ∧
    (∀ (s : LabelState) (m : TickMode) (i sc mls : ℚ),
      ¬ tick_scale m sc < mls →
      ¬ seconds_lookup s.seconds_registrar (to_seconds m i) < tick_scale m sc →
      register s m i sc mls = s) ∧
    (∀ (s : LabelState) (m : TickMode) (i sc mls : ℚ),
      ¬ tick_scale m sc < mls →
      seconds_lookup s.seconds_registrar (to_seconds m i) < tick_scale m sc →
      (m, i) ∈ (register s m i sc mls).registrar ∧
      seconds_lookup (register s m i sc mls).seconds_registrar (to_seconds m i) =
        tick_scale m sc) ∧
    (∀ (s : LabelState) (mc mf : TickMode) (ic jf sc mlsc mlsf : ℚ),
      mc ≠ mf →
      to_seconds mc ic = to_seconds mf jf →
      tick_scale mf sc ≤ tick_scale mc sc →
      ¬ tick_scale mc sc < mlsc →
      seconds_lookup s.seconds_registrar (to_seconds mc ic) < tick_scale mc sc →
      (mf, jf) ∉ s.registrar →
      (mc, ic) ∈ (register (register s mc ic sc mlsc) mf jf sc mlsf).registrar ∧
      (mf, jf) ∉ (register (register s mc ic sc mlsc) mf jf sc mlsf).registrar) := by
  refine ⟨register_drop_small, register_drop_claimed, ?_, ?_⟩
  · intro s m i sc mls h1 h2
    obtain ⟨hr, hs⟩ := register_win s m i sc mls h1 h2
    constructor
    · rw [hr]
      split_ifs with hin
      · exact hin
      · exact List.mem_cons_self _ _
    · rw [hs]
      simp [seconds_lookup, List.find?]
  · intro s mc mf ic jf sc mlsc mlsf hne hsec hle h4 h5 hnotin
    obtain ⟨hs1reg, hs1sec⟩ := register_win s mc ic sc mlsc h4 h5
    have hmc : (mc, ic) ∈ (register s mc ic sc mlsc).registrar := by
      rw [hs1reg]
      split_ifs with hin
      · exact hin
      · exact List.mem_cons_self _ _
    have hmf : (mf, jf) ∉ (register s mc ic sc mlsc).registrar := by
      rw [hs1reg]
      split_ifs with hin
      · exact hnotin
      · intro hmem
        rcases List.mem_cons.mp hmem with heq | hmem2
        · exact hne ((Prod.ext_iff.mp heq).1).symm
        · exact hnotin hmem2
    have hreg2 : register (register s mc ic sc mlsc) mf jf sc mlsf =
        register s mc ic sc mlsc := by
      by_cases hf : tick_scale mf sc < mlsf
      · exact register_drop_small _ _ _ _ _ hf
      · refine register_drop_claimed _ _ _ _ _ hf ?_
        have hlook : seconds_lookup (register s mc ic sc mlsc).seconds_registrar
            (to_seconds mf jf) = tick_scale mc sc := by
          rw [hs1sec, ← hsec]
          simp [seconds_lookup, List.find?]
        rw [hlook]
        exact not_lt.mpr hle
    rw [hreg2]
    exact ⟨hmc, hmf⟩

/-- Witness for C7 amended, part (4): `day` (on-screen size 1440) registers
first at epoch second 0, then `minute` (size 1) - only the day tick is
labelled. -/
theorem claim7_witness :
    (TickMode.day, (0:ℚ)) ∈ (register (register ⟨[], [], false⟩
        TickMode.day 0 1440 1) TickMode.minute 0 1440 1).registrar ∧
    (TickMode.minute, (0:ℚ)) ∉ (register (register ⟨[], [], false⟩
        TickMode.day 0 1440 1) TickMode.minute 0 1440 1).registrar :=
  claim7_register_suppression.2.2.2 ⟨[], [], false⟩ TickMode.day TickMode.minute
    0 0 1440 1 1 (by decide)
    (by norm_num [to_seconds])
    (by norm_num [tick_scale, scale_factor])
    (by norm_num [tick_scale, scale_factor])
    (by norm_num [seconds_lookup, List.find?, to_seconds, tick_scale, scale_factor, pround])
    (List.not_mem_nil _)

/-! The label layout: the day-branch date stacking of
`TimeLabeller.make_labels`, and `TimeTick.get_label_texture`. -/

/-- A Kivy `Rectangle`'s position and size as `make_labels` manipulates
them: `pos = (x, y)`, `size = (w, h)`.  On a vertical axis (`a = 1`,
`b = 0` in the source) the stacking adjusts the `y` coordinates and leaves
`x` alone. -/
structure KRect where
  x : ℚ
  y : ℚ
  w : ℚ
  h : ℚ
deriving DecidableEq

/-- Embeds the date-stacking step of `TimeLabeller.make_labels` (day branch,
vertical non-reversed axis, `have_time` set, at least two date labels):
with `second_last` and `last` the rectangles of the two date labels nearest
the axis end in `bottom_up` order and `max_ = tl.top`,
`last_coord = max(second_last.pos[1] + second_last.size[1],
max_ - last.size[1])` and `second_last_coord = min(second_last.pos[1] +
second_last.size[1], max_) - second_last.size[1]`; both coordinates are
computed from the rectangles' natural positions before either is moved, and
each label keeps its `x`. -/
def make_labels_day_stack (second_last last : KRect) (top : ℚ) :
    KRect × KRect :=
  let last_coord := max (second_last.y + second_last.h) (top - last.h)
  let second_last_coord := min (second_last.y + second_last.h) top - second_last.h
  ({ second_last with y := second_last_coord },
   { last with y := last_coord })

/-- C9 counterexample: second-to-last date label naturally at the bottom of
the axis (y 0, height 30, top edge 30), last date label naturally at y 50
with height 20, axis top 100.  The last label lands flush at y 80, but the
second-to-last stays at y 0: its top edge 30 is not immediately before 80,
contradicting "the earlier one sits immediately before it regardless of
the labels' natural positions". -/
theorem claim9_counterexample :
    (make_labels_day_stack ⟨0, 0, 10, 30⟩ ⟨0, 50, 10, 20⟩ 100).1.y +
        (make_labels_day_stack ⟨0, 0, 10, 30⟩ ⟨0, 50, 10, 20⟩ 100).1.h ≠
      (make_labels_day_stack ⟨0, 0, 10, 30⟩ ⟨0, 50, 10, 20⟩ 100).2.y := by
  norm_num [make_labels_day_stack]

/-- C9 amended: on a vertical non-reversed axis with time labels present,
the layout clamps rather than forces: the later date label's new bottom is
`max(earlier's natural top edge, top - its height)` - flush against the
boundary exactly when the earlier label's natural extent leaves room,
otherwise pushed just past the earlier's natural top edge (beyond the
boundary); the earlier label's new top edge is `min(its natural top edge,
top)`; the two labels never overlap (the earlier's new top edge is at most
the later's new bottom); and when the earlier's natural top edge leaves
room, the later label is indeed flush with the boundary. -/
theorem claim9_date_stack_clamped (second_last last : KRect) (top : ℚ) :
    (make_labels_day_stack second_last last top).2.y =
      max (second_last.y + second_last.h) (top - last.h) ∧
    (make_labels_day_stack second_last last top).1.y + second_last.h =
      min (second_last.y + second_last.h) top ∧
    (make_labels_day_stack second_last last top).1.y +
        (make_labels_day_stack second_last last top).1.h ≤
      (make_labels_day_stack second_last last top).2.y ∧
    (make_labels_day_stack second_last last top).2.h = last.h ∧
    (second_last.y + second_last.h ≤ top - last.h →
      (make_labels_day_stack second_last last top).2.y + last.h = top) := by
  refine ⟨rfl, by simp [make_labels_day_stack], ?_, rfl, ?_⟩
  · simp only [make_labels_day_stack]
    have h1 : min (second_last.y + second_last.h) top - second_last.h +
        second_last.h = min (second_last.y + second_last.h) top := by ring
    rw [h1]
    exact le_trans (min_le_left _ _) (le_max_left _ _)
  · intro h
    simp only [make_labels_day_stack]
    rw [max_eq_right h]
    ring

/-- Witness for C9 amended at the counterexample's rectangles: the earlier
label's natural extent (top edge 30) leaves room below the boundary 100 for
the 20-high later label, so the later label ends up flush at the top. -/
theorem claim9_witness :
    (make_labels_day_stack ⟨0, 0, 10, 30⟩ ⟨0, 50, 10, 20⟩ 100).2.y + 20 = 100 :=
  (claim9_date_stack_clamped ⟨0, 0, 10, 30⟩ ⟨0, 50, 10, 20⟩ 100).2.2.2.2
    (by norm_num)

/-- The content of a tick label as `get_label_texture` computes it, Kivy
texture rendering abstracted away: no label, a date stamp (determined by a
civil day number, which fixes both the `%a` weekday and the `%m-%d-%y`
date), or a time-of-day stamp (succinct form drops the seconds from the
display: `str(t.time())[:-3]`). -/
inductive LabelText where
  | noLabel
  | dateText (civil : ℤ)
  | timeText (succinct : Bool) (time_of_day_us : ℤ)
deriving DecidableEq

/-- The civil day number containing a wall-clock instant: days since the
epoch midnight, floor division. -/
def civil_day (w : ℤ) : ℤ := w / 86400000000

/-- `'second' in self.mode`: whether the mode name contains the substring
`'second'`. -/
def mode_has_second (m : TickMode) : Bool :=
  match m with
  | second | seconds5 | seconds10 | seconds15 | seconds30 => true
  | _ => false

/-- Embeds `TimeTick.get_label_texture(index, succinct)` applied to a
datetime at wall-clock microsecond `w` (a numeric index is first converted
via `datetime_of`): mode `second` returns `None`; mode `day` formats
`t - timedelta(seconds=1)` with `'%a\n%m-%d-%y'` - the weekday and date of
one second *before* the tick, abstracted to that instant's civil day;
every other mode shows `t.time()`, succinct display truncating the
seconds. -/
def get_label_texture (m : TickMode) (w : ℤ) (succinct : Bool) : LabelText :=
  if m = TickMode.second then LabelText.noLabel
  else if m = TickMode.day then LabelText.dateText (civil_day (w - 1000000))
  else if mode_has_second m = false ∧ succinct = true then
    LabelText.timeText true (w % 86400000000)
  else LabelText.timeText false (w % 86400000000)

/-- C10: a day tick's label always shows the weekday and date of the
instant one second before the tick; at an exact midnight boundary that is
the previous civil day - the calendar day that ends at the boundary, not
the one that begins there. -/
theorem claim10_day_label_previous_day (w : ℤ) (succ : Bool) :
    get_label_texture TickMode.day w succ =
      LabelText.dateText (civil_day (w - 1000000)) ∧
    ((86400000000 : ℤ) ∣ w →
      civil_day (w - 1000000) = civil_day w - 1 ∧
      civil_day (w - 1000000) ≠ civil_day w) := by
  constructor
  · simp [get_label_texture]
  · rintro ⟨k, hk⟩
    subst hk
    unfold civil_day
    constructor <;> omega

/-- Witness for C10 at the first midnight after the epoch: the label shows
the epoch's civil day 0, not day 1. -/
theorem claim10_witness :
    civil_day (86400000000 - 1000000) = civil_day 86400000000 - 1 :=
  ((claim10_day_label_previous_day 86400000000 true).2 ⟨1, by norm_num⟩).1
